import Mathlib

/-!
Verification of the EPLAN tag cleaner (`src/main.py`) against its design
specification.  Python strings are embedded as `List Char`; the relevant
Python string primitives (`strip`, `split`, `rsplit`, `in`, `upper`,
`lower`, comparison) are modelled explicitly below, and the parsing,
formatting and pipeline functions are translated from the source.
-/

deriving instance DecidableEq for Except

/-- A Python string, modelled as its list of characters. -/
abbrev PyStr := List Char

/-- Coerce a Lean string literal into the `PyStr` model. -/
def pystr (s : String) : PyStr := s.toList

/-- Python `str.isspace` on the ASCII whitespace characters that
`str.strip()` / `str.split()` treat as whitespace. -/
def pyIsSpace (c : Char) : Bool :=
  c = ' ' || c = '\t' || c = '\n' || c = '\r' || c = '\x0b' || c = '\x0c'

/-- Python `s.strip()`: remove leading and trailing whitespace. -/
def pyStrip (s : PyStr) : PyStr :=
  ((s.dropWhile pyIsSpace).reverse.dropWhile pyIsSpace).reverse

/-- Python `s.upper()` (per-character, as in the ASCII identifiers used here). -/
def pyUpper (s : PyStr) : PyStr := s.map Char.toUpper

/-- Python `s.lower()`. -/
def pyLower (s : PyStr) : PyStr := s.map Char.toLower

/-- The first whitespace-delimited token of `s`: what `s.split()[0]`
returns when `s` has at least one non-whitespace character. -/
def firstToken (s : PyStr) : PyStr :=
  (s.dropWhile pyIsSpace).takeWhile (fun c => !(pyIsSpace c))

/-- Python `"+".join(tokens)`. -/
def joinPlus (ts : List PyStr) : PyStr := List.intercalate ['+'] ts

/-- Python `s.split(c)` for a single-character separator: splits on every
occurrence of `c`, keeping empty pieces (`[] ↦ [[]]`, like `"".split("+") = [""]`). -/
def splitOnChar (c : Char) : PyStr → List PyStr
  | [] => [[]]
  | a :: as =>
    if a = c then [] :: splitOnChar c as
    else
      match splitOnChar c as with
      | [] => [[a]]
      | t :: ts => (a :: t) :: ts

/-- Python `raw.split(c, 1)` at the first occurrence of the character `c`:
the pair (text before the first `c`, text after it). -/
def splitFirstChar (c : Char) (s : PyStr) : PyStr × PyStr :=
  (s.takeWhile (fun a => a ≠ c), (s.dropWhile (fun a => a ≠ c)).drop 1)

/-- `d` occurs in `s` starting at index `i`. -/
def occursAt (d s : PyStr) (i : Nat) : Bool := d.isPrefixOf (s.drop i)

/-- Python `d in s` (substring containment; the empty string is contained
in every string). -/
def isSubstring (d s : PyStr) : Bool :=
  (List.range (s.length + 1)).any (fun i => occursAt d s i)

/-- Index of the last occurrence of `d` in `s` (none if `d` never occurs). -/
def lastOccurIdx (d s : PyStr) : Option Nat :=
  (List.range (s.length + 1)).reverse.find? (fun i => occursAt d s i)

/-- Python `s.rsplit(d, 1)` when `d` occurs in `s` and is non-empty:
split at the last occurrence of `d`.  (The fallback branch is never
reached by `parse_line`, which guards on occurrence first.) -/
def rsplitLast (d s : PyStr) : PyStr × PyStr :=
  match lastOccurIdx d s with
  | some i => (s.take i, s.drop (i + d.length))
  | none => ([], s)

/-- The exceptions `parse_line` can actually raise. -/
inductive PyError where
  | indexError : PyError
  | valueError : PyError
deriving Repr, DecidableEq

/-- The sidebar configuration of `src/main.py` (lines 22-91), passed
explicitly instead of being read from globals. -/
structure Config where
  delimiter : PyStr
  trim_at_space : Bool
  uppercase : Bool
  remove_duplicates : Bool
  sort_tags : Bool
  filter_substring : PyStr
  min_length : Nat
  max_length : Nat
  include_description : Bool
  include_line : Bool
  include_cabinet : Bool
  include_tag : Bool
deriving Repr, DecidableEq

/-- The default configuration (the `value=` defaults of the sidebar widgets). -/
def defaultConfig : Config where
  delimiter := pystr "-"
  trim_at_space := true
  uppercase := false
  remove_duplicates := true
  sort_tags := false
  filter_substring := []
  min_length := 1
  max_length := 30
  include_description := true
  include_line := true
  include_cabinet := true
  include_tag := true

/-- The record dictionary built by `parse_line` (`src/main.py` lines 171-177).
`otherLocation` stores `"+".join(other_loc)`, as the source does. -/
structure Record where
  description : PyStr
  line : PyStr
  cabinet : PyStr
  tag : PyStr
  otherLocation : PyStr
deriving Repr, DecidableEq

/-- `x.upper() if uppercase else x` as applied to tag/line/cabinet
(`src/main.py` lines 163-167; `pyUpper [] = []`, so the truthiness guard
in `line_id.upper() if line_id else ""` is immaterial). -/
def upperIf (cfg : Config) (s : PyStr) : PyStr :=
  if cfg.uppercase then pyUpper s else s

/-- The `description` computed at `src/main.py` lines 121-127: the stripped
text before the first `=` of the stripped line, or empty when there is no `=`. -/
def descriptionOf (line : PyStr) : PyStr :=
  let raw := pyStrip line
  if raw.any (fun c => c = '=') then pyStrip (splitFirstChar '=' raw).1 else []

/-- The `right_part` computed at `src/main.py` lines 121-127: the stripped
text after the first `=`, or the whole stripped line when there is no `=`. -/
def rightPartOf (line : PyStr) : PyStr :=
  let raw := pyStrip line
  if raw.any (fun c => c = '=') then pyStrip (splitFirstChar '=' raw).2 else raw

/-- `tag_raw` as produced by `right_part.rsplit(delimiter, 1)`
(`src/main.py` line 134), before any trimming. -/
def tagRaw0Of (cfg : Config) (line : PyStr) : PyStr :=
  (rsplitLast cfg.delimiter (rightPartOf line)).2

/-- `location_part.strip()` (`src/main.py` lines 134, 145). -/
def locationPartOf (cfg : Config) (line : PyStr) : PyStr :=
  pyStrip (rsplitLast cfg.delimiter (rightPartOf line)).1

/-- The final `tag` value (`src/main.py` lines 137-140): optionally trimmed
at the first whitespace, then stripped.  Only meaningful on the branch where
the trim step does not raise. -/
def tagOf (cfg : Config) (line : PyStr) : PyStr :=
  pyStrip (if cfg.trim_at_space then firstToken (tagRaw0Of cfg line) else tagRaw0Of cfg line)

/-- Case-insensitive prefix test against `"LIN"` (`src/main.py` line 156). -/
def isLin (t : PyStr) : Bool := (pystr "LIN").isPrefixOf (pyUpper t)

/-- Case-insensitive prefix test against `"CAB"` (`src/main.py` line 158). -/
def isCab (t : PyStr) : Bool := (pystr "CAB").isPrefixOf (pyUpper t)

/-- The token-classification loop of `src/main.py` lines 151-161, with the
accumulators `line_id`, `cabinet_id`, `other_loc` made explicit.  Note that
a matching token overwrites the accumulator (`line_id = token`). -/
def classifyTokens : List PyStr → PyStr → PyStr → List PyStr → PyStr × PyStr × List PyStr
  | [], li, cab, oth => (li, cab, oth)
  | t :: ts, li, cab, oth =>
    let tok := pyStrip t
    if tok = [] then classifyTokens ts li cab oth
    else if isLin tok then classifyTokens ts tok cab oth
    else if isCab tok then classifyTokens ts li tok oth
    else classifyTokens ts li cab (oth ++ [tok])

/-- The classification result for a given input line: `([], [], [])` when the
stripped location part is empty (the loop body is skipped), otherwise the
loop applied to the `+`-split tokens (`src/main.py` lines 144-161). -/
def clsOf (cfg : Config) (line : PyStr) : PyStr × PyStr × List PyStr :=
  if locationPartOf cfg line = [] then ([], [], [])
  else classifyTokens (splitOnChar '+' (locationPartOf cfg line)) [] [] []

/-- `parse_line` (`src/main.py` lines 104-177).  The Python function can
raise: `tag_raw.split()[0]` (line 138) raises `IndexError` when `tag_raw`
is empty or all-whitespace, and `rsplit("", 1)` (line 134) raises
`ValueError` for an empty delimiter (the `"" in right_part` containment
check is always true, so that guard does not intercept it). -/
def parse_line (cfg : Config) (line : PyStr) : Except PyError (Option Record) :=
  if pyStrip line = [] then .ok none
  else if isSubstring cfg.delimiter (rightPartOf line) = false then .ok none
  else if cfg.delimiter = [] then .error .valueError
  else if cfg.trim_at_space = true ∧ (tagRaw0Of cfg line).dropWhile pyIsSpace = [] then
    .error .indexError
  else if tagOf cfg line = [] then .ok none
  else
    .ok (some { description := descriptionOf line
              , line := upperIf cfg (clsOf cfg line).1
              , cabinet := upperIf cfg (clsOf cfg line).2.1
              , tag := upperIf cfg (tagOf cfg line)
              , otherLocation := joinPlus (clsOf cfg line).2.2 })

/-- The location string `loc_str` of `format_output_row`
(`src/main.py` lines 199-206): `"+".join` of whichever of line/cabinet are
non-empty and enabled, line before cabinet. -/
def locStr (cfg : Config) (r : Record) : PyStr :=
  joinPlus ((if cfg.include_line = true ∧ r.line ≠ [] then [r.line] else []) ++
            (if cfg.include_cabinet = true ∧ r.cabinet ≠ [] then [r.cabinet] else []))

/-- The `loc_tag` string of `format_output_row` (`src/main.py` lines 208-216). -/
def locPlusTag (cfg : Config) (r : Record) : PyStr :=
  if cfg.include_tag = true ∧ r.tag ≠ [] then
    if locStr cfg r ≠ [] then locStr cfg r ++ cfg.delimiter ++ r.tag else r.tag
  else locStr cfg r

/-- `format_output_row` (`src/main.py` lines 180-227).  The `parts` list of
the source holds at most the description; its truthiness is the condition
`include_description ∧ description ≠ ""`. -/
def format_output_row (cfg : Config) (r : Record) : PyStr :=
  if (cfg.include_description = true ∧ r.description ≠ []) ∧ locPlusTag cfg r ≠ [] then
    r.description ++ ' ' :: '=' :: locPlusTag cfg r
  else if cfg.include_description = true ∧ r.description ≠ [] then r.description
  else if locPlusTag cfg r ≠ [] then locPlusTag cfg r
  else []

/-- The Tag length filter (`src/main.py` line 243). -/
def lengthOK (cfg : Config) (r : Record) : Bool :=
  decide (cfg.min_length ≤ r.tag.length) && decide (r.tag.length ≤ cfg.max_length)

/-- The case-insensitive substring filter predicate (`src/main.py` line 248). -/
def substrOK (cfg : Config) (r : Record) : Bool :=
  isSubstring (pyLower cfg.filter_substring) (pyLower r.tag)

/-- Stage 1 of the pipeline: keep records whose tag length is within bounds
(`src/main.py` lines 242-244). -/
def lengthFilter (cfg : Config) (l : List Record) : List Record :=
  l.filter (lengthOK cfg)

/-- Stage 2: the substring filter, skipped entirely when the configured
filter string is empty (`src/main.py` lines 246-249). -/
def substringFilter (cfg : Config) (l : List Record) : List Record :=
  if cfg.filter_substring = [] then l else l.filter (substrOK cfg)

/-- The duplicate-removal loop with its `seen_tags` accumulator
(`src/main.py` lines 254-263). -/
def dedupAux (seen : List PyStr) : List Record → List Record
  | [] => []
  | r :: rs =>
    if r.tag ∈ seen then dedupAux seen rs
    else r :: dedupAux (r.tag :: seen) rs

/-- `remove_duplicates`: keep the first record for each distinct tag
(`src/main.py` lines 253-263). -/
def remove_duplicates (l : List Record) : List Record := dedupAux [] l

/-- Lexicographic (code-point) comparison of Python strings: `a <= b`. -/
def pyLeChars : PyStr → PyStr → Bool
  | [], _ => true
  | _ :: _, [] => false
  | a :: as, b :: bs => decide (a < b) || (decide (a = b) && pyLeChars as bs)

/-- Stable insertion into a list sorted by tag: the new record goes in
front of the first element whose tag is `≥` its own. -/
def insertByTag (r : Record) : List Record → List Record
  | [] => [r]
  | x :: xs => if pyLeChars r.tag x.tag then r :: x :: xs else x :: insertByTag r xs

/-- `sorted(rows, key=lambda r: r["Tag"])` (`src/main.py` lines 266-267),
modelled as the stable insertion sort by tag (Python's `sorted` is stable). -/
def sortTags : List Record → List Record
  | [] => []
  | x :: xs => insertByTag x (sortTags xs)

/-- The full filter/dedup/sort pipeline applied to the sequence of parsed
records (`src/main.py` lines 234-267): length filter, substring filter,
optional dedup, optional sort, in that fixed order. -/
def pipeline (cfg : Config) (l : List Record) : List Record :=
  let l2 := substringFilter cfg (lengthFilter cfg l)
  let l3 := if cfg.remove_duplicates then remove_duplicates l2 else l2
  if cfg.sort_tags then sortTags l3 else l3

/-- The non-empty stripped tokens of a `+`-separated token list, in order:
exactly the tokens the classification loop does not skip. -/
def strippedTokens (ts : List PyStr) : List PyStr :=
  (ts.map pyStrip).filter (fun t => !t.isEmpty)

/-- The non-empty stripped `+`-separated tokens of the location segment of
a line, as seen by the classification loop. -/
def strippedTokensOf (cfg : Config) (line : PyStr) : List PyStr :=
  strippedTokens (splitOnChar '+' (locationPartOf cfg line))

/-- The record parsed from the scenario line
`"SERVISNA VTICNICA ELE. OMARA =LIN1+CAB1-6F13"` under defaults. -/
def recScenario : Record :=
  ⟨pystr "SERVISNA VTICNICA ELE. OMARA", pystr "LIN1", pystr "CAB1", pystr "6F13", []⟩

/-- Two records sharing the tag `"6F13"`, the first with an empty and the
second with a non-empty description. -/
def recDupA : Record := ⟨[], [], [], pystr "6F13", []⟩

/-- Second record with tag `"6F13"` (dropped by dedup). -/
def recDupB : Record := ⟨pystr "B", [], [], pystr "6F13", []⟩

/-- `upperIf` maps non-empty strings to non-empty strings. -/
theorem upperIf_ne_nil (cfg : Config) (s : PyStr) (h : s ≠ []) : upperIf cfg s ≠ [] := by
  unfold upperIf
  split
  · cases s with
    | nil => exact absurd rfl h
    | cons c cs => simp [pyUpper]
  · exact h

/-- Claim C1: the spec says `parse_line` never raises, but the code does:
with `trim_at_space` enabled (the default), an empty tag part makes
`tag_raw.split()[0]` raise `IndexError` (input `"=X-"`), and an empty
delimiter makes `right_part.rsplit("", 1)` raise `ValueError`. -/
theorem C1_parse_line_raises :
    parse_line defaultConfig (pystr "=X-") = .error .indexError ∧
    parse_line { defaultConfig with delimiter := [] } (pystr "A") = .error .valueError :=
  ⟨by decide, by decide⟩

/-- Claim C3: whenever `parse_line` returns a record, its tag is non-empty
(the `if not tag: return None` guard at `src/main.py` lines 140-142 runs
before the record is built). -/
theorem C3_parsed_tag_nonempty (cfg : Config) (line : PyStr) (r : Record)
    (h : parse_line cfg line = .ok (some r)) : r.tag ≠ [] := by
  unfold parse_line at h
  split at h
  · simp at h
  · split at h
    · simp at h
    · split at h
      · simp at h
      · split at h
        · simp at h
        · split at h
          · simp at h
          · rename_i htag
            obtain rfl : _ = r := Option.some.inj (Except.ok.inj h)
            exact upperIf_ne_nil cfg _ htag

/-- Witness for C3 at a concrete input. -/
theorem C3_witness : (Record.mk [] (pystr "LIN2") [] (pystr "7X02") []).tag ≠ [] :=
  C3_parsed_tag_nonempty defaultConfig (pystr "=LIN2-7X02 extra")
    (Record.mk [] (pystr "LIN2") [] (pystr "7X02") []) (by decide)

/-- Claim C5: if the configured delimiter does not occur in the post-`=`
segment, `parse_line` returns `None` (`src/main.py` lines 130-132). -/
theorem C5_no_delimiter_yields_none (cfg : Config) (line : PyStr)
    (h : isSubstring cfg.delimiter (rightPartOf line) = false) :
    parse_line cfg line = .ok none := by
  simp [parse_line, h]

/-- Witness for C5 at a concrete input. -/
theorem C5_witness : parse_line defaultConfig (pystr "NO DELIM HERE") = .ok none :=
  C5_no_delimiter_yields_none defaultConfig (pystr "NO DELIM HERE") (by decide)

/-- Claim C10: the formatted output never depends on `otherLocation` —
`format_output_row` reads only description, line, cabinet and tag. -/
theorem C10_format_independent_of_other_location (cfg : Config) (r₁ r₂ : Record)
    (hd : r₁.description = r₂.description) (hl : r₁.line = r₂.line)
    (hc : r₁.cabinet = r₂.cabinet) (ht : r₁.tag = r₂.tag) :
    format_output_row cfg r₁ = format_output_row cfg r₂ := by
  simp only [format_output_row, locPlusTag, locStr, hd, hl, hc, ht]

/-- Witness for C10: two records that differ only in `otherLocation`
format identically. -/
theorem C10_witness :
    format_output_row defaultConfig
      (Record.mk (pystr "D") (pystr "LIN1") (pystr "CAB1") (pystr "6F13") (pystr "XX")) =
    format_output_row defaultConfig
      (Record.mk (pystr "D") (pystr "LIN1") (pystr "CAB1") (pystr "6F13") (pystr "YY")) :=
  C10_format_independent_of_other_location defaultConfig _ _ rfl rfl rfl rfl

/-- Counterexample to claim C2: in `"=LIN1+LIN2-T"` the later LIN-prefixed
token is not ignored — it overwrites the earlier one, so the record's line
field is `"LIN2"`, not the first match `"LIN1"`. -/
theorem C2_counterexample :
    parse_line defaultConfig (pystr "=LIN1+LIN2-T") =
      .ok (some ⟨[], pystr "LIN2", [], pystr "T", []⟩) ∧
    (⟨[], pystr "LIN2", [], pystr "T", []⟩ : Record).line ≠ pystr "LIN1" :=
  ⟨by decide, by decide⟩

/-- `<=` on strings is reflexive. -/
theorem pyLeChars_refl (s : PyStr) : pyLeChars s s = true := by
  induction s with
  | nil => rfl
  | cons c cs ih => simp [pyLeChars, ih]

/-- String comparison is total: one of `a <= b`, `b <= a` always holds. -/
theorem pyLeChars_total (a b : PyStr) : pyLeChars a b = true ∨ pyLeChars b a = true := by
  induction a generalizing b with
  | nil => exact Or.inl rfl
  | cons c cs ih =>
    cases b with
    | nil => exact Or.inr rfl
    | cons d ds =>
      rcases lt_trichotomy c d with h | h | h
      · left
        simp [pyLeChars, h]
      · subst h
        rcases ih ds with h' | h'
        · left
          simp [pyLeChars, h']
        · right
          simp [pyLeChars, h']
      · right
        simp [pyLeChars, h]

/-- `insertByTag` places the new record in front of the first element whose
tag is not strictly below its own. -/
theorem insertByTag_eq (r : Record) (l : List Record) :
    insertByTag r l =
      l.takeWhile (fun x => !(pyLeChars r.tag x.tag)) ++
        r :: l.dropWhile (fun x => !(pyLeChars r.tag x.tag)) := by
  induction l with
  | nil => rfl
  | cons x xs ih =>
    unfold insertByTag
    cases h : pyLeChars r.tag x.tag with
    | true => simp [List.takeWhile_cons, List.dropWhile_cons, h]
    | false => simp [List.takeWhile_cons, List.dropWhile_cons, h, ih]

/-- Inserting a record keeps the relative order of records with any given
tag: the inserted record lands before all records with an equal tag. -/
theorem filter_insertByTag (r : Record) (l : List Record) (t : PyStr) :
    (insertByTag r l).filter (fun x => decide (x.tag = t)) =
      if r.tag = t then r :: l.filter (fun x => decide (x.tag = t))
      else l.filter (fun x => decide (x.tag = t)) := by
  rw [insertByTag_eq, List.filter_append]
  by_cases hrt : r.tag = t
  · rw [if_pos hrt]
    have htw : (l.takeWhile (fun x => !(pyLeChars r.tag x.tag))).filter
        (fun x => decide (x.tag = t)) = [] := by
      rw [List.filter_eq_nil_iff]
      intro a ha
      have hp := List.mem_takeWhile_imp ha
      simp only [Bool.not_eq_true'] at hp
      simp only [decide_eq_true_eq]
      intro he
      rw [hrt, ← he] at hp
      simp [pyLeChars_refl] at hp
    rw [htw, List.nil_append, List.filter_cons_of_pos (by simp [hrt])]
    conv_rhs =>
      rw [← List.takeWhile_append_dropWhile (fun x => !(pyLeChars r.tag x.tag)) l]
    rw [List.filter_append, htw, List.nil_append]
  · rw [if_neg hrt, List.filter_cons_of_neg (by simp [hrt])]
    conv_rhs =>
      rw [← List.takeWhile_append_dropWhile (fun x => !(pyLeChars r.tag x.tag)) l]
    rw [List.filter_append]

/-- The sort keeps the relative order of records with any given tag
(stability). -/
theorem filter_sortTags (l : List Record) (t : PyStr) :
    (sortTags l).filter (fun x => decide (x.tag = t)) =
      l.filter (fun x => decide (x.tag = t)) := by
  induction l with
  | nil => rfl
  | cons x xs ih =>
    unfold sortTags
    rw [filter_insertByTag]
    by_cases h : x.tag = t
    · rw [if_pos h, ih]
      simp [List.filter_cons, h]
    · rw [if_neg h, ih]
      simp [List.filter_cons, h]

/-- The head of an insertion is the inserted record or the old head. -/
theorem head?_insertByTag (r : Record) (l : List Record) :
    (insertByTag r l).head? = some r ∨ (insertByTag r l).head? = l.head? := by
  cases l with
  | nil => exact Or.inl rfl
  | cons x xs =>
    unfold insertByTag
    cases h : pyLeChars r.tag x.tag with
    | true => exact Or.inl rfl
    | false => exact Or.inr rfl

/-- Insertion preserves sortedness by tag. -/
theorem chain'_insertByTag (r : Record) (l : List Record)
    (h : l.Chain' (fun a b => pyLeChars a.tag b.tag = true)) :
    (insertByTag r l).Chain' (fun a b => pyLeChars a.tag b.tag = true) := by
  induction l with
  | nil => simp [insertByTag]
  | cons x xs ih =>
    unfold insertByTag
    cases hle : pyLeChars r.tag x.tag with
    | true =>
      rw [if_pos rfl]
      exact List.chain'_cons.mpr ⟨hle, h⟩
    | false =>
      rw [if_neg (by simp)]
      rw [List.chain'_cons']
      refine ⟨?_, ih h.tail⟩
      intro y hy
      rcases head?_insertByTag r xs with he | he
      · rw [he] at hy
        obtain rfl := Option.some.inj hy
        rcases pyLeChars_total r.tag x.tag with h' | h'
        · exact absurd (hle ▸ h') (by simp)
        · exact h'
      · rw [he] at hy
        exact (List.chain'_cons'.mp h).1 y hy

/-- The sort output is sorted: adjacent tags are `≤`-related. -/
theorem chain'_sortTags (l : List Record) :
    (sortTags l).Chain' (fun a b => pyLeChars a.tag b.tag = true) := by
  induction l with
  | nil => simp [sortTags]
  | cons x xs ih => exact chain'_insertByTag x _ ih

/-- Sorting a sorted list is the identity. -/
theorem sortTags_eq_self (l : List Record)
    (h : l.Chain' (fun a b => pyLeChars a.tag b.tag = true)) : sortTags l = l := by
  induction l with
  | nil => rfl
  | cons x xs ih =>
    unfold sortTags
    rw [ih h.tail]
    cases xs with
    | nil => rfl
    | cons y ys =>
      unfold insertByTag
      rw [if_pos (List.chain'_cons.mp h).1]

/-- Insertion is a permutation of consing. -/
theorem insertByTag_perm (r : Record) (l : List Record) :
    List.Perm (insertByTag r l) (r :: l) := by
  induction l with
  | nil => exact .refl _
  | cons x xs ih =>
    unfold insertByTag
    cases h : pyLeChars r.tag x.tag with
    | true => exact .refl _
    | false => exact (ih.cons x).trans (List.Perm.swap r x xs)

/-- The sort permutes its input. -/
theorem sortTags_perm (l : List Record) : List.Perm (sortTags l) l := by
  induction l with
  | nil => exact .refl []
  | cons x xs ih => exact (insertByTag_perm x (sortTags xs)).trans (ih.cons x)

/-- Claim C7: with `sort_tags` enabled the sort stage is a stable ascending
sort by tag — every adjacent pair of the output is `≤`-ordered on tags
(lexicographic code-point comparison), and records with any given tag keep
their relative input order. -/
theorem C7_sort_stable_ascending (l : List Record) :
    (sortTags l).Chain' (fun a b => pyLeChars a.tag b.tag = true) ∧
    (∀ t, (sortTags l).filter (fun x => decide (x.tag = t)) =
      l.filter (fun x => decide (x.tag = t))) :=
  ⟨chain'_sortTags l, fun t => filter_sortTags l t⟩

/-- Claim C9: how the formatter combines the description with the
location-plus-tag string (`src/main.py` lines 218-227), and the round-trip
scenario: parsing and re-formatting the example line reproduces it. -/
theorem C9_format_combination :
    (∀ cfg r,
      ((cfg.include_description = true ∧ r.description ≠ []) → locPlusTag cfg r ≠ [] →
        format_output_row cfg r = r.description ++ ' ' :: '=' :: locPlusTag cfg r) ∧
      ((cfg.include_description = true ∧ r.description ≠ []) → locPlusTag cfg r = [] →
        format_output_row cfg r = r.description) ∧
      (¬(cfg.include_description = true ∧ r.description ≠ []) → locPlusTag cfg r ≠ [] →
        format_output_row cfg r = locPlusTag cfg r) ∧
      (¬(cfg.include_description = true ∧ r.description ≠ []) → locPlusTag cfg r = [] →
        format_output_row cfg r = [])) ∧
    parse_line defaultConfig (pystr "SERVISNA VTICNICA ELE. OMARA =LIN1+CAB1-6F13") =
      .ok (some recScenario) ∧
    format_output_row defaultConfig recScenario =
      pystr "SERVISNA VTICNICA ELE. OMARA =LIN1+CAB1-6F13" := by
  refine ⟨?_, by decide, by decide⟩
  intro cfg r
  refine ⟨?_, ?_, ?_, ?_⟩ <;> intro hd hlt <;>
    simp_all [format_output_row]

/-- Witness for C9 at the scenario record. -/
theorem C9_witness :
    format_output_row defaultConfig recScenario =
      recScenario.description ++ ' ' :: '=' :: locPlusTag defaultConfig recScenario :=
  (C9_format_combination.1 defaultConfig recScenario).1 (by decide) (by decide)

/-- The dedup loop output is a sublist of its input (relative order kept). -/
theorem dedupAux_sublist (seen : List PyStr) (l : List Record) :
    (dedupAux seen l).Sublist l := by
  induction l generalizing seen with
  | nil => simp [dedupAux]
  | cons x xs ih =>
    unfold dedupAux
    split
    · exact (ih seen).cons x
    · exact (ih (x.tag :: seen)).cons₂ x

/-- Every record in the dedup loop output has a tag outside `seen` and is
the first record of the input with its tag. -/
theorem mem_dedupAux (seen : List PyStr) (l : List Record) (r : Record)
    (h : r ∈ dedupAux seen l) :
    r.tag ∉ seen ∧ l.find? (fun x => decide (x.tag = r.tag)) = some r := by
  induction l generalizing seen with
  | nil => simp [dedupAux] at h
  | cons x xs ih =>
    unfold dedupAux at h
    split at h
    · rename_i hin
      obtain ⟨hns, hf⟩ := ih seen h
      have hne : ¬(x.tag = r.tag) := fun he => hns (he ▸ hin)
      refine ⟨hns, ?_⟩
      rw [List.find?_cons_of_neg _ (by simpa using hne), hf]
    · rename_i hnin
      rcases List.mem_cons.mp h with rfl | hmem
      · exact ⟨hnin, by simp [List.find?_cons_of_pos]⟩
      · obtain ⟨hns, hf⟩ := ih (x.tag :: seen) hmem
        have hne : ¬(x.tag = r.tag) := fun he => hns (by simp [he])
        refine ⟨fun hs => hns (List.mem_cons_of_mem _ hs), ?_⟩
        rw [List.find?_cons_of_neg _ (by simpa using hne), hf]

/-- No two records in the dedup loop output share a tag. -/
theorem pairwise_dedupAux (seen : List PyStr) (l : List Record) :
    (dedupAux seen l).Pairwise (fun a b => a.tag ≠ b.tag) := by
  induction l generalizing seen with
  | nil => simp [dedupAux]
  | cons x xs ih =>
    unfold dedupAux
    split
    · exact ih seen
    · refine List.Pairwise.cons ?_ (ih (x.tag :: seen))
      intro y hy he
      exact (mem_dedupAux _ _ _ hy).1 (by simp [← he])

/-- Every input record's tag is either already `seen` or represented in the
dedup loop output. -/
theorem dedupAux_covers (seen : List PyStr) (l : List Record) (r : Record)
    (h : r ∈ l) : r.tag ∈ seen ∨ ∃ r' ∈ dedupAux seen l, r'.tag = r.tag := by
  induction l generalizing seen with
  | nil => simp at h
  | cons x xs ih =>
    unfold dedupAux
    rcases List.mem_cons.mp h with rfl | hmem
    · split
      · rename_i hin
        exact Or.inl hin
      · exact Or.inr ⟨r, List.mem_cons_self r _, rfl⟩
    · split
      · exact ih seen hmem
      · rcases ih (x.tag :: seen) hmem with hseen | ⟨r', hr', he⟩
        · rcases List.mem_cons.mp hseen with he | hs
          · exact Or.inr ⟨x, List.mem_cons_self x _, he.symm⟩
          · exact Or.inl hs
        · exact Or.inr ⟨r', List.mem_cons_of_mem x hr', he⟩

/-- The dedup loop is the identity on a list of pairwise-distinct tags none
of which is in `seen`. -/
theorem dedupAux_eq_self (seen : List PyStr) (l : List Record)
    (hseen : ∀ r ∈ l, r.tag ∉ seen)
    (hpw : l.Pairwise (fun a b => a.tag ≠ b.tag)) : dedupAux seen l = l := by
  induction l generalizing seen with
  | nil => rfl
  | cons x xs ih =>
    unfold dedupAux
    rw [if_neg (hseen x (List.mem_cons_self x _))]
    congr 1
    apply ih
    · intro r hr hmem
      rcases List.mem_cons.mp hmem with he | hs
      · exact (List.pairwise_cons.mp hpw).1 r hr he.symm
      · exact hseen r (List.mem_cons_of_mem x hr) hs
    · exact (List.pairwise_cons.mp hpw).2

/-- Claim C6: `remove_duplicates` keeps, for each distinct tag, only the
first record in input order (each survivor is the `find?`-first record with
its tag), preserves relative order (sublist), represents every input tag,
and its output has no two records sharing a tag. -/
theorem C6_dedup_first_wins (l : List Record) :
    (remove_duplicates l).Sublist l ∧
    (remove_duplicates l).Pairwise (fun a b => a.tag ≠ b.tag) ∧
    (∀ r ∈ remove_duplicates l, l.find? (fun x => decide (x.tag = r.tag)) = some r) ∧
    (∀ r ∈ l, ∃ r' ∈ remove_duplicates l, r'.tag = r.tag) := by
  refine ⟨dedupAux_sublist [] l, pairwise_dedupAux [] l, ?_, ?_⟩
  · intro r hr
    exact (mem_dedupAux [] l r hr).2
  · intro r hr
    rcases dedupAux_covers [] l r hr with h | h
    · simp at h
    · exact h

/-- Witness for C6: in a two-record list with equal tags, the survivor is
the first occurrence. -/
theorem C6_witness :
    [recDupA, recDupB].find? (fun x => decide (x.tag = recDupA.tag)) = some recDupA :=
  (C6_dedup_first_wins [recDupA, recDupB]).2.2.1 recDupA (by decide)

/-- A record in the pipeline output lies in the doubly-filtered list: the
dedup stage only drops elements (sublist) and the sort only permutes. -/
theorem mem_pipeline (cfg : Config) (l : List Record) (r : Record)
    (h : r ∈ pipeline cfg l) : r ∈ substringFilter cfg (lengthFilter cfg l) := by
  have hd : ∀ m : List Record,
      r ∈ (if cfg.remove_duplicates then remove_duplicates m else m) → r ∈ m := by
    intro m hm
    split at hm
    · exact (dedupAux_sublist [] m).subset hm
    · exact hm
  cases hs : cfg.sort_tags with
  | true =>
    have he : pipeline cfg l =
        sortTags (if cfg.remove_duplicates then
          remove_duplicates (substringFilter cfg (lengthFilter cfg l))
        else substringFilter cfg (lengthFilter cfg l)) := by
      simp [pipeline, hs]
    rw [he] at h
    exact hd _ ((sortTags_perm _).mem_iff.mp h)
  | false =>
    have he : pipeline cfg l =
        (if cfg.remove_duplicates then
          remove_duplicates (substringFilter cfg (lengthFilter cfg l))
        else substringFilter cfg (lengthFilter cfg l)) := by
      simp [pipeline, hs]
    rw [he] at h
    exact hd _ h

/-- Every pipeline survivor passes the length bound, and the substring
filter whenever that stage is active. -/
theorem pipeline_preds (cfg : Config) (l : List Record) (r : Record)
    (h : r ∈ pipeline cfg l) :
    lengthOK cfg r = true ∧ (cfg.filter_substring ≠ [] → substrOK cfg r = true) := by
  have h2 := mem_pipeline cfg l r h
  unfold substringFilter at h2
  split at h2
  · rename_i hempty
    exact ⟨List.of_mem_filter h2, fun hne => absurd hempty hne⟩
  · have h1 : r ∈ lengthFilter cfg l := List.mem_of_mem_filter h2
    exact ⟨List.of_mem_filter h1, fun _ => List.of_mem_filter h2⟩

/-- The length filter is the identity on a list whose members all pass it. -/
theorem lengthFilter_id_of (cfg : Config) (m : List Record)
    (h : ∀ r ∈ m, lengthOK cfg r = true) : lengthFilter cfg m = m := by
  unfold lengthFilter
  exact List.filter_eq_self.mpr h

/-- The substring filter is the identity on a list whose members all pass
it (or when it is disabled). -/
theorem substringFilter_id_of (cfg : Config) (m : List Record)
    (h : cfg.filter_substring ≠ [] → ∀ r ∈ m, substrOK cfg r = true) :
    substringFilter cfg m = m := by
  unfold substringFilter
  split
  · rfl
  · rename_i hne
    exact List.filter_eq_self.mpr (h hne)

/-- With dedup enabled, the pipeline output has pairwise-distinct tags
(the sort stage only permutes, which preserves distinctness). -/
theorem pipeline_pairwise (cfg : Config) (l : List Record)
    (hdd : cfg.remove_duplicates = true) :
    (pipeline cfg l).Pairwise (fun a b => a.tag ≠ b.tag) := by
  cases hs : cfg.sort_tags with
  | true =>
    have he : pipeline cfg l =
        sortTags (remove_duplicates (substringFilter cfg (lengthFilter cfg l))) := by
      simp [pipeline, hdd, hs]
    rw [he]
    refine (List.Perm.pairwise_iff ?_ (sortTags_perm _)).mpr (pairwise_dedupAux [] _)
    intro a b hab hba
    exact hab hba.symm
  | false =>
    have he : pipeline cfg l =
        remove_duplicates (substringFilter cfg (lengthFilter cfg l)) := by
      simp [pipeline, hdd, hs]
    rw [he]
    exact pairwise_dedupAux [] _

/-- With sort enabled, the pipeline output is sorted by tag. -/
theorem pipeline_chain (cfg : Config) (l : List Record)
    (hs : cfg.sort_tags = true) :
    (pipeline cfg l).Chain' (fun a b => pyLeChars a.tag b.tag = true) := by
  have he : pipeline cfg l =
      sortTags (if cfg.remove_duplicates then
        remove_duplicates (substringFilter cfg (lengthFilter cfg l))
      else substringFilter cfg (lengthFilter cfg l)) := by
    simp [pipeline, hs]
  rw [he]
  exact chain'_sortTags _

/-- The pipeline is the identity on any list fixed by each of its stages. -/
theorem pipeline_stable (cfg : Config) (m : List Record)
    (h1 : substringFilter cfg (lengthFilter cfg m) = m)
    (h2 : cfg.remove_duplicates = true → remove_duplicates m = m)
    (h3 : cfg.sort_tags = true → sortTags m = m) :
    pipeline cfg m = m := by
  cases hdd : cfg.remove_duplicates with
  | false =>
    cases hs : cfg.sort_tags with
    | false => simp [pipeline, hdd, hs, h1]
    | true => simp [pipeline, hdd, hs, h1, h3 hs]
  | true =>
    cases hs : cfg.sort_tags with
    | false => simp [pipeline, hdd, hs, h1, h2 hdd]
    | true => simp [pipeline, hdd, hs, h1, h2 hdd, h3 hs]

/-- Claim C8: the filter/dedup/sort pipeline is idempotent — applying it
to its own output returns that output unchanged, for every configuration. -/
theorem C8_pipeline_idempotent (cfg : Config) (l : List Record) :
    pipeline cfg (pipeline cfg l) = pipeline cfg l := by
  apply pipeline_stable
  · have hlen : lengthFilter cfg (pipeline cfg l) = pipeline cfg l :=
      lengthFilter_id_of cfg _ (fun r h => (pipeline_preds cfg l r h).1)
    rw [hlen]
    exact substringFilter_id_of cfg _ (fun hne r h => (pipeline_preds cfg l r h).2 hne)
  · intro hdd
    exact dedupAux_eq_self [] _ (fun r _ => List.not_mem_nil r.tag)
      (pipeline_pairwise cfg l hdd)
  · intro hs
    exact sortTags_eq_self _ (pipeline_chain cfg l hs)

/-- A CAB-prefixed token is never LIN-prefixed (the uppercased token starts
with `'C'`, not `'L'`). -/
theorem not_isLin_of_isCab (t : PyStr) (h : isCab t = true) : isLin t = false := by
  cases t with
  | nil => simp [isCab, pyUpper, pystr, List.isPrefixOf] at h
  | cons c cs =>
    have hc : c.toUpper = 'C' := by
      simp only [isCab, pyUpper, pystr, List.map, List.isPrefixOf, Bool.and_eq_true,
        beq_iff_eq] at h
      exact h.1.symm
    have hl : (('L' : Char) == 'C') = false := by decide
    simp [isLin, pyUpper, pystr, List.isPrefixOf, hc, hl]

/-- The classification loop's CAB test only runs on tokens that failed the
LIN test, but the two prefixes are disjoint, so the combined predicate is
just the CAB test. -/
theorem cab_pred_eq (t : PyStr) : (!isLin t && isCab t) = isCab t := by
  cases hc : isCab t with
  | false => simp
  | true => simp [not_isLin_of_isCab t hc]

/-- Unfolding of `strippedTokens` over the head token. -/
theorem strippedTokens_cons (t : PyStr) (ts : List PyStr) :
    strippedTokens (t :: ts) =
      if pyStrip t = [] then strippedTokens ts else pyStrip t :: strippedTokens ts := by
  simp only [strippedTokens, List.map, List.filter_cons]
  by_cases h : pyStrip t = []
  · simp [h]
  · simp [h, List.isEmpty_iff]

/-- Characterization of the classification loop: because each LIN/CAB match
overwrites the accumulator, the final `line_id` is the last LIN-prefixed
token, `cabinet_id` the last CAB-prefixed token, and the other tokens are
appended in order. -/
theorem classifyTokens_spec (ts : List PyStr) (li cab : PyStr) (oth : List PyStr) :
    classifyTokens ts li cab oth =
      ( ((strippedTokens ts).filter isLin).getLastD li
      , ((strippedTokens ts).filter (fun t => !isLin t && isCab t)).getLastD cab
      , oth ++ (strippedTokens ts).filter (fun t => !isLin t && !isCab t) ) := by
  induction ts generalizing li cab oth with
  | nil => simp [classifyTokens, strippedTokens]
  | cons t ts ih =>
    have hcls : classifyTokens (t :: ts) li cab oth =
        (if pyStrip t = [] then classifyTokens ts li cab oth
         else if isLin (pyStrip t) = true then classifyTokens ts (pyStrip t) cab oth
         else if isCab (pyStrip t) = true then classifyTokens ts li (pyStrip t) oth
         else classifyTokens ts li cab (oth ++ [pyStrip t])) := rfl
    rw [hcls, strippedTokens_cons]
    by_cases h0 : pyStrip t = []
    · rw [if_pos h0, if_pos h0, ih]
    · rw [if_neg h0, if_neg h0]
      cases h1 : isLin (pyStrip t) with
      | true =>
        rw [if_pos rfl, ih]
        have e1 : (pyStrip t :: strippedTokens ts).filter isLin =
            pyStrip t :: (strippedTokens ts).filter isLin := by
          simp [List.filter_cons, h1]
        have e2 : (pyStrip t :: strippedTokens ts).filter (fun x => !isLin x && isCab x) =
            (strippedTokens ts).filter (fun x => !isLin x && isCab x) := by
          simp [List.filter_cons, h1]
        have e3 : (pyStrip t :: strippedTokens ts).filter (fun x => !isLin x && !isCab x) =
            (strippedTokens ts).filter (fun x => !isLin x && !isCab x) := by
          simp [List.filter_cons, h1]
        rw [e1, e2, e3, List.getLastD_cons]
      | false =>
        rw [if_neg (by simp)]
        have e1 : (pyStrip t :: strippedTokens ts).filter isLin =
            (strippedTokens ts).filter isLin := by
          simp [List.filter_cons, h1]
        cases h2 : isCab (pyStrip t) with
        | true =>
          rw [if_pos rfl, ih]
          have e2 : (pyStrip t :: strippedTokens ts).filter (fun x => !isLin x && isCab x) =
              pyStrip t :: (strippedTokens ts).filter (fun x => !isLin x && isCab x) := by
            simp [List.filter_cons, h1, h2]
          have e3 : (pyStrip t :: strippedTokens ts).filter (fun x => !isLin x && !isCab x) =
              (strippedTokens ts).filter (fun x => !isLin x && !isCab x) := by
            simp [List.filter_cons, h2]
          rw [e1, e2, e3, List.getLastD_cons]
        | false =>
          rw [if_neg (by simp), ih]
          have e2 : (pyStrip t :: strippedTokens ts).filter (fun x => !isLin x && isCab x) =
              (strippedTokens ts).filter (fun x => !isLin x && isCab x) := by
            simp [List.filter_cons, h2]
          have e3 : (pyStrip t :: strippedTokens ts).filter (fun x => !isLin x && !isCab x) =
              pyStrip t :: (strippedTokens ts).filter (fun x => !isLin x && !isCab x) := by
            simp [List.filter_cons, h1, h2]
          rw [e1, e2, e3]
          simp

/-- Claim C2 (amended): classification is last-match-wins — the record's
line field holds the last LIN-prefixed token of the location segment (later
matches overwrite earlier ones), the cabinet field the last CAB-prefixed
token, and every other non-empty token is appended, in original order and
casing (whitespace-stripped), to the other-location list. -/
theorem C2_amended_last_match (cfg : Config) (line : PyStr) (r : Record)
    (h : parse_line cfg line = .ok (some r)) :
    r.line = upperIf cfg (((strippedTokensOf cfg line).filter isLin).getLastD []) ∧
    r.cabinet = upperIf cfg (((strippedTokensOf cfg line).filter isCab).getLastD []) ∧
    r.otherLocation =
      joinPlus ((strippedTokensOf cfg line).filter (fun t => !isLin t && !isCab t)) := by
  have hfc : ∀ l : List PyStr,
      l.filter (fun t => !isLin t && isCab t) = l.filter isCab :=
    fun l => List.filter_congr (fun t _ => cab_pred_eq t)
  have hcls : clsOf cfg line =
      ( ((strippedTokensOf cfg line).filter isLin).getLastD []
      , ((strippedTokensOf cfg line).filter isCab).getLastD []
      , (strippedTokensOf cfg line).filter (fun t => !isLin t && !isCab t) ) := by
    unfold clsOf strippedTokensOf
    split
    · rename_i hlp
      rw [hlp]
      decide
    · rw [classifyTokens_spec, hfc]
      simp
  unfold parse_line at h
  split at h
  · simp at h
  · split at h
    · simp at h
    · split at h
      · simp at h
      · split at h
        · simp at h
        · split at h
          · simp at h
          · obtain rfl : _ = r := Option.some.inj (Except.ok.inj h)
            refine ⟨?_, ?_, ?_⟩ <;> rw [hcls]

/-- Witness for the amended C2 at a concrete input. -/
theorem C2_witness :
    (Record.mk [] (pystr "LIN2") [] (pystr "T") []).line =
      upperIf defaultConfig
        (((strippedTokensOf defaultConfig (pystr "=LIN1+LIN2-T")).filter isLin).getLastD []) :=
  (C2_amended_last_match defaultConfig (pystr "=LIN1+LIN2-T")
    (Record.mk [] (pystr "LIN2") [] (pystr "T") []) (by decide)).1

/-- `dropWhile` is the identity on a list none of whose elements satisfy
the predicate. -/
theorem dropWhile_eq_self_of_not (p : Char → Bool) (s : PyStr)
    (h : ∀ c ∈ s, p c = false) : s.dropWhile p = s := by
  cases s with
  | nil => rfl
  | cons c cs => simp [List.dropWhile_cons, h c (by simp)]

/-- `strip` is the identity on a string with no whitespace characters. -/
theorem pyStrip_eq_self (s : PyStr) (h : ∀ c ∈ s, pyIsSpace c = false) : pyStrip s = s := by
  unfold pyStrip
  rw [dropWhile_eq_self_of_not _ _ h,
    dropWhile_eq_self_of_not _ _ (fun c hc => h c (List.mem_reverse.mp hc)),
    List.reverse_reverse]

/-- The first whitespace-delimited token contains no whitespace, so
stripping it is the identity. -/
theorem pyStrip_firstToken (s : PyStr) : pyStrip (firstToken s) = firstToken s := by
  apply pyStrip_eq_self
  intro c hc
  unfold firstToken at hc
  have := List.mem_takeWhile_imp hc
  simpa using this

/-- Claim C4 (amended): with `trim_at_space` enabled, the raw tag is
replaced by its first whitespace-delimited token — leading whitespace is
skipped rather than producing an empty tag — and a raw tag that is empty or
all-whitespace raises `IndexError` instead of yielding `None`; the scenario
`"=LIN2-7X02 extra"` still yields tag `"7X02"`. -/
theorem C4_amended_first_token :
    (∀ cfg line r, cfg.trim_at_space = true →
      parse_line cfg line = .ok (some r) →
      r.tag = upperIf cfg (firstToken (tagRaw0Of cfg line)) ∧
      firstToken (tagRaw0Of cfg line) ≠ []) ∧
    (∀ cfg line, cfg.trim_at_space = true → pyStrip line ≠ [] →
      isSubstring cfg.delimiter (rightPartOf line) = true → cfg.delimiter ≠ [] →
      (tagRaw0Of cfg line).dropWhile pyIsSpace = [] →
      parse_line cfg line = .error .indexError) ∧
    parse_line defaultConfig (pystr "=LIN2-7X02 extra") =
      .ok (some ⟨[], pystr "LIN2", [], pystr "7X02", []⟩) := by
  refine ⟨?_, ?_, by decide⟩
  · intro cfg line r htrim h
    have htag : tagOf cfg line = firstToken (tagRaw0Of cfg line) := by
      unfold tagOf
      rw [if_pos htrim, pyStrip_firstToken]
    unfold parse_line at h
    split at h
    · simp at h
    · split at h
      · simp at h
      · split at h
        · simp at h
        · split at h
          · simp at h
          · split at h
            · simp at h
            · rename_i hne
              obtain rfl : _ = r := Option.some.inj (Except.ok.inj h)
              rw [htag] at hne
              exact ⟨by rw [htag], hne⟩
  · intro cfg line htrim h1 hs hd hdw
    simp [parse_line, h1, hs, hd, htrim, hdw]

/-- Witness for the amended C4 at a concrete input. -/
theorem C4_witness :
    (Record.mk [] (pystr "LIN2") [] (pystr "7X02") []).tag =
      upperIf defaultConfig (firstToken (tagRaw0Of defaultConfig (pystr "=LIN2-7X02 extra"))) :=
  (C4_amended_first_token.1 defaultConfig (pystr "=LIN2-7X02 extra")
    (Record.mk [] (pystr "LIN2") [] (pystr "7X02") []) rfl (by decide)).1

/-- Counterexample to claim C4: a raw tag beginning with whitespace does not
truncate to the empty string; `"=LIN2- 7X02"` parses to a record with tag
`"7X02"` instead of yielding `None` as the claim states. -/
theorem C4_counterexample :
    parse_line defaultConfig (pystr "=LIN2- 7X02") =
      .ok (some ⟨[], pystr "LIN2", [], pystr "7X02", []⟩) ∧
    Except.ok (some (⟨[], pystr "LIN2", [], pystr "7X02", []⟩ : Record)) ≠
      (Except.ok none : Except PyError (Option Record)) :=
  ⟨by decide, by decide⟩
